import Mathlib

/-!
Verification development for the network-diagram generation service
(src/main.py).  The core under scrutiny is the topology builder and the
left-to-right layout engine: pydantic record validation (class CircuitData,
lines 17-24), the record-folding loop that builds a networkx node set plus
an edges_info label map (generate_pptx, lines 68-91), and the positioning
function apply_l2r_topology_layout (lines 27-52).

The embedding below mirrors the Python source.  Python strings are Lean
String values; Python string comparison (code-point lexicographic, used by
sorted), substring containment (the in operator) and ASCII uppercasing are
implemented over the underlying character lists so that every definition is
executable and kernel-reducible.  The networkx node set is an association
list in insertion order whose add operation overwrites attributes in place
(the networkx add_node semantics), and edges_info is an association list in
insertion order whose append operation mirrors defaultdict(list).append.
Layout coordinates are rational numbers; all constants in the source
(2.0, 6.66, 11.33, 3.75, 1.5) are exact decimals, rendered as rationals.
-/

/-! ## String primitives (Python semantics, executable) -/

/-- ASCII uppercasing of one character, as Python str.upper acts on the
ASCII range (the source compares against the ASCII markers MPLS, VPN,
ADSL only, so the ASCII fragment of upper is the relevant one). -/
def upperChar (c : Char) : Char :=
  if 97 ≤ c.toNat && c.toNat ≤ 122 then Char.ofNat (c.toNat - 32) else c

/-- Uppercase a string characterwise (Python stringValue.upper()). -/
def upperStr (s : String) : String := ⟨s.data.map upperChar⟩

/-- Character-list prefix test. -/
def prefixOfChars : List Char → List Char → Bool
  | [], _ => true
  | _ :: _, [] => false
  | a :: as, b :: bs => a == b && prefixOfChars as bs

/-- Character-list infix test. -/
def infixOfChars : List Char → List Char → Bool
  | pat, [] => prefixOfChars pat []
  | pat, c :: rest => prefixOfChars pat (c :: rest) || infixOfChars pat rest

/-- Substring containment, the Python expression pat in s. -/
def strContains (s pat : String) : Bool := infixOfChars pat.data s.data

/-- Code-point lexicographic comparison on character lists, the order used
by the Python builtin sorted on strings. -/
def charListLe : List Char → List Char → Bool
  | [], _ => true
  | _ :: _, [] => false
  | a :: as, b :: bs =>
    if a.toNat < b.toNat then true
    else if b.toNat < a.toNat then false
    else charListLe as bs

/-- Code-point lexicographic comparison on strings. -/
def strLe (a b : String) : Bool := charListLe a.data b.data

/-! ## Data model -/

/-- Model of the pydantic class CircuitData (src/main.py lines 17-24)
after validation: required string fields plus optional fields defaulted
to the empty string. -/
structure CircuitData where
  PRODUCT_TYPE : String
  CIRCUIT_ID : String
  SITE_ID_A : String
  BUILDING_A : String
  SITE_ID_B : String := ""
  BUILDING_B : String := ""
  ROUTER_NAME : String := ""
deriving DecidableEq, Repr

/-- A raw incoming JSON record before pydantic validation: each field is
either present (with a string value) or absent/null. -/
structure RawCircuit where
  PRODUCT_TYPE : Option String
  CIRCUIT_ID : Option String
  SITE_ID_A : Option String
  BUILDING_A : Option String
  SITE_ID_B : Option String
  BUILDING_B : Option String
  ROUTER_NAME : Option String
deriving DecidableEq, Repr

/-- Pydantic validation of one record against class CircuitData
(src/main.py lines 17-24): the four fields declared without a default
(PRODUCT_TYPE, CIRCUIT_ID, SITE_ID_A, BUILDING_A) are required, and a
missing or null required field raises a ValidationError; the three
Optional fields default to the empty string when absent or null (null
values are later normalized by df.fillna at line 59).  Pydantic accepts
the empty string as a value of a required str field. -/
def validateCircuit (raw : RawCircuit) : Except String CircuitData :=
  match raw.PRODUCT_TYPE, raw.CIRCUIT_ID, raw.SITE_ID_A, raw.BUILDING_A with
  | some pt, some ci, some sa, some ba =>
    .ok ⟨pt, ci, sa, ba, raw.SITE_ID_B.getD "", raw.BUILDING_B.getD "", raw.ROUTER_NAME.getD ""⟩
  | _, _, _, _ => .error "ValidationError"

/-- Node attributes held by the networkx graph: the keyword arguments of
every add_node call in the source (label and role). -/
structure NodeAttrs where
  label : String
  role : String
deriving DecidableEq, Repr

/-- The networkx node set: an association list in insertion order.
networkx preserves first-insertion order and re-adding a node updates its
attributes in place. -/
abbrev Graph := List (String × NodeAttrs)

/-- An edges_info key: a pair of node identities. -/
abbrev EdgeKey := String × String

/-- The edges_info map (src/main.py line 69): defaultdict(list), an
association list from edge keys to circuit-label lists, in insertion
order. -/
abbrev EdgeMap := List (EdgeKey × List String)

/-- The networkx G.add_node(n, label=..., role=...) call: overwrite the
attributes if the node exists (keeping its position), otherwise append. -/
def addNode : Graph → String → NodeAttrs → Graph
  | [], n, a => [(n, a)]
  | (m, b) :: rest, n, a =>
    if m = n then (m, a) :: rest else (m, b) :: addNode rest n a

/-- Attribute lookup in the node set. -/
def lookupNode : Graph → String → Option NodeAttrs
  | [], _ => none
  | (m, b) :: rest, n => if m = n then some b else lookupNode rest n

/-- The Python statement edges_info[k].append(lbl) on a defaultdict(list):
append to the list under k if k is present, otherwise insert k with the
singleton list. -/
def appendEdgeLabel : EdgeMap → EdgeKey → String → EdgeMap
  | [], k, lbl => [(k, [lbl])]
  | (k₀, ls) :: rest, k, lbl =>
    if k₀ = k then (k₀, ls ++ [lbl]) :: rest
    else (k₀, ls) :: appendEdgeLabel rest k lbl

/-- Label-list lookup in the edge map. -/
def lookupEdge : EdgeMap → EdgeKey → Option (List String)
  | [], _ => none
  | (k₀, ls) :: rest, k => if k₀ = k then some ls else lookupEdge rest k

/-- The label list stored under an edge key, empty when the key is absent
(the defaultdict read view). -/
def getEdge (E : EdgeMap) (k : EdgeKey) : List String := (lookupEdge E k).getD []

/-! ## Topology builder (generate_pptx, src/main.py lines 68-91) -/

/-- Marker substrings for the datacenter role (src/main.py line 75). -/
def dcKeywords : List String := ["HQ", "DC", "總部", "機房"]

/-- Marker substrings for shared-network products (src/main.py line 79). -/
def cloudKeywords : List String := ["MPLS", "VPN", "ADSL"]

/-- The fixed identity of the synthetic cloud node (src/main.py line 81). -/
def cloudId : String := "Cloud_Network"

/-- The fixed display label of the synthetic cloud node (line 82). -/
def cloudDisplayLabel : String := "MPLS / VPN / Internet"

/-- Role classification of an endpoint from its building name
(src/main.py lines 75, 85, 89): datacenter when the building contains any
datacenter marker, else customer. -/
def classifyRole (building : String) : String :=
  if dcKeywords.any (fun k => strContains building k) then "datacenter" else "customer"

/-- The circuit label (src/main.py line 77): uppercased product type and
circuit id in the format PRODUCT_TYPE [CIRCUIT_ID]. -/
def circuitLabel (r : CircuitData) : String :=
  upperStr r.PRODUCT_TYPE ++ " [" ++ r.CIRCUIT_ID ++ "]"

/-- The shared-network test (src/main.py line 79): the uppercased product
type contains one of the cloud markers. -/
def isCloudProduct (r : CircuitData) : Bool :=
  cloudKeywords.any (fun x => strContains (upperStr r.PRODUCT_TYPE) x)

/-- Edge-key canonicalization, the Python expression tuple(sorted((a, b)))
(src/main.py lines 83, 87, 91): the pair sorted lexicographically. -/
def edgeKey (a b : String) : EdgeKey := if strLe a b then (a, b) else (b, a)

/-- The builder state: the networkx graph plus the edges_info map. -/
structure BuildState where
  G : Graph
  E : EdgeMap
deriving DecidableEq, Repr

/-- One iteration of the record loop (src/main.py lines 72-91). -/
def processRecord (st : BuildState) (r : CircuitData) : BuildState :=
  let G₁ := addNode st.G r.SITE_ID_A ⟨r.BUILDING_A, classifyRole r.BUILDING_A⟩
  let lbl := circuitLabel r
  if isCloudProduct r then
    let G₂ := addNode G₁ cloudId ⟨cloudDisplayLabel, "cloud"⟩
    let E₁ := appendEdgeLabel st.E (edgeKey r.SITE_ID_A cloudId) lbl
    if r.SITE_ID_B ≠ "" then
      ⟨addNode G₂ r.SITE_ID_B ⟨r.BUILDING_B, classifyRole r.BUILDING_B⟩,
       appendEdgeLabel E₁ (edgeKey r.SITE_ID_B cloudId) lbl⟩
    else ⟨G₂, E₁⟩
  else if r.SITE_ID_B ≠ "" then
    ⟨addNode G₁ r.SITE_ID_B ⟨r.BUILDING_B, classifyRole r.BUILDING_B⟩,
     appendEdgeLabel st.E (edgeKey r.SITE_ID_A r.SITE_ID_B) lbl⟩
  else ⟨G₁, st.E⟩

/-- The whole builder loop: fold the records, starting from the empty
graph and the empty edges_info map (src/main.py lines 68-91). -/
def buildTopology (records : List CircuitData) : BuildState :=
  records.foldl processRecord ⟨[], []⟩

/-! ## Layout engine (apply_l2r_topology_layout, src/main.py lines 27-52) -/

/-- Left-column nodes: every node whose role is neither cloud nor
datacenter (the else branch of the role dispatch, line 36), in graph
insertion order. -/
def leftNodes (G : Graph) : List String :=
  (G.filter (fun p => !(p.2.role == "cloud") && !(p.2.role == "datacenter"))).map Prod.fst

/-- Center-column nodes: role cloud (line 34), in insertion order. -/
def centerNodes (G : Graph) : List String :=
  (G.filter (fun p => p.2.role == "cloud")).map Prod.fst

/-- Right-column nodes: role datacenter and not cloud (the elif branch,
line 35), in insertion order. -/
def rightNodes (G : Graph) : List String :=
  (G.filter (fun p => !(p.2.role == "cloud") && p.2.role == "datacenter")).map Prod.fst

/-- The three fixed column x-coordinates (src/main.py line 39). -/
def X_LEFT : ℚ := 2

/-- Center-column x-coordinate, 6.66 in the source. -/
def X_CENTER : ℚ := 666 / 100

/-- Right-column x-coordinate, 11.33 in the source. -/
def X_RIGHT : ℚ := 1133 / 100

/-- The enumerate loop inside assign_y_positions (src/main.py lines
46-47): position node i at (x, startY + i * spacing). -/
def assignYAux (xPos startY spacing : ℚ) : ℕ → List String → List (String × ℚ × ℚ)
  | _, [] => []
  | i, n :: rest => (n, xPos, startY + (i : ℚ) * spacing) :: assignYAux xPos startY spacing (i + 1) rest

/-- The inner helper assign_y_positions (src/main.py lines 41-47): an
empty group contributes nothing; otherwise the group is centered on the
midline 3.75 with uniform spacing 1.5. -/
def assignYPositions (nodes : List String) (xPos : ℚ) : List (String × ℚ × ℚ) :=
  if nodes.isEmpty then []
  else
    let ySpacing : ℚ := 3 / 2
    let startY : ℚ := 15 / 4 - ((nodes.length : ℚ) - 1) * ySpacing / 2
    assignYAux xPos startY ySpacing 0 nodes

/-- The layout engine (src/main.py lines 27-52): partition the nodes by
role and lay each group out on its column; the pos dictionary is the
union of the three disjoint groups, modelled as the concatenated
association list. -/
def apply_l2r_topology_layout (G : Graph) : List (String × ℚ × ℚ) :=
  assignYPositions (leftNodes G) X_LEFT ++
  assignYPositions (centerNodes G) X_CENTER ++
  assignYPositions (rightNodes G) X_RIGHT

/-- Position lookup in the layout result. -/
def lookupPos : List (String × ℚ × ℚ) → String → Option (ℚ × ℚ)
  | [], _ => none
  | (m, q) :: rest, n => if m = n then some q else lookupPos rest n

/-! ## Derived views used to state the claims -/

/-- The last element of a list, if any. -/
def lastOf {α : Type} : List α → Option α
  | [] => none
  | a :: l =>
    match lastOf l with
    | some b => some b
    | none => some a

/-- The sequence of add_node calls performed for one record, in program
order (src/main.py lines 76, 82, 86, 90). -/
def nodeWrites (r : CircuitData) : List (String × NodeAttrs) :=
  let aWrite := (r.SITE_ID_A, NodeAttrs.mk r.BUILDING_A (classifyRole r.BUILDING_A))
  let bWrite := (r.SITE_ID_B, NodeAttrs.mk r.BUILDING_B (classifyRole r.BUILDING_B))
  if isCloudProduct r then
    aWrite :: (cloudId, NodeAttrs.mk cloudDisplayLabel "cloud") ::
      (if r.SITE_ID_B ≠ "" then [bWrite] else [])
  else if r.SITE_ID_B ≠ "" then [aWrite, bWrite]
  else [aWrite]

/-- The sequence of edges_info appends performed for one record, in
program order (src/main.py lines 83, 87, 91). -/
def edgeWrites (r : CircuitData) : List (EdgeKey × String) :=
  let lbl := circuitLabel r
  if isCloudProduct r then
    (edgeKey r.SITE_ID_A cloudId, lbl) ::
      (if r.SITE_ID_B ≠ "" then [(edgeKey r.SITE_ID_B cloudId, lbl)] else [])
  else if r.SITE_ID_B ≠ "" then [(edgeKey r.SITE_ID_A r.SITE_ID_B, lbl)]
  else []

/-- Replay a list of node writes. -/
def applyNodeWrites (G : Graph) (ws : List (String × NodeAttrs)) : Graph :=
  ws.foldl (fun g w => addNode g w.1 w.2) G

/-- Replay a list of edge appends. -/
def applyEdgeWrites (E : EdgeMap) (ws : List (EdgeKey × String)) : EdgeMap :=
  ws.foldl (fun e w => appendEdgeLabel e w.1 w.2) E

/-- The building names that a record attaches to a given site identity,
in program order: the A endpoint always, the B endpoint when the B site
id is nonempty (src/main.py lines 76, 86, 90). -/
def recordMentions (r : CircuitData) (s : String) : List String :=
  (if r.SITE_ID_A = s then [r.BUILDING_A] else []) ++
  (if r.SITE_ID_B = s ∧ r.SITE_ID_B ≠ "" then [r.BUILDING_B] else [])

/-- All building names attached to a site identity across a batch, in
input order. -/
def mentions (recs : List CircuitData) (s : String) : List String :=
  recs.flatMap (fun r => recordMentions r s)

/-- First-occurrence deduplication of a list continued from an
accumulator, keeping the position of the first occurrence of each
element. -/
def firstOccurAux (acc : List String) (l : List String) : List String :=
  l.foldl (fun acc₀ x => if x ∈ acc₀ then acc₀ else acc₀ ++ [x]) acc

/-- First-occurrence deduplication of a list. -/
def firstOccur (l : List String) : List String := firstOccurAux [] l

/-- The keys of an association list. -/
def keysOf {α β : Type} (l : List (α × β)) : List α := l.map Prod.fst

/-- The values written under one key by a write sequence, in order. -/
def writesFor {α β : Type} [DecidableEq α] (ws : List (α × β)) (a : α) : List β :=
  (ws.filter (fun w => decide (w.1 = a))).map Prod.snd

/-- Left-biased choice of two optional values. -/
def overrideWith {α : Type} : Option α → Option α → Option α
  | some a, _ => some a
  | none, b => b

/-- The index of the first occurrence of an element in a list (the
enumerate position the layout loop sees). -/
def idxOf (n : String) : List String → ℕ
  | [] => 0
  | m :: rest => if m = n then 0 else idxOf n rest + 1

/-- The column group a role is laid out in (src/main.py lines 32-36). -/
def groupNodes (G : Graph) (role : String) : List String :=
  if role == "cloud" then centerNodes G
  else if role == "datacenter" then rightNodes G
  else leftNodes G

/-- The column x-coordinate a role is laid out at. -/
def colX (role : String) : ℚ :=
  if role == "cloud" then X_CENTER
  else if role == "datacenter" then X_RIGHT
  else X_LEFT

/-- The y-coordinate formula of the specification,
y = midline - (count - 1) * spacing / 2 + i * spacing, with midline 15/4
and spacing 3/2. -/
def yFromSpec (count i : ℕ) : ℚ :=
  15 / 4 - ((count : ℚ) - 1) * (3 / 2) / 2 + (i : ℚ) * (3 / 2)

/-! ## Lemmas on the string order -/

theorem char_eq_of_toNat_eq (a b : Char) (h : a.toNat = b.toNat) : a = b := by
  have hv : a.val = b.val := by
    apply UInt32.ext
    simpa [Char.toNat] using h
  cases a
  cases b
  simp only at hv
  subst hv
  rfl

theorem charListLe_total : ∀ (as bs : List Char),
    charListLe as bs = true ∨ charListLe bs as = true
  | [], _ => by left; rfl
  | _ :: _, [] => by right; rfl
  | a :: as, b :: bs => by
    rcases Nat.lt_trichotomy a.toNat b.toNat with h | h | h
    · left; simp [charListLe, h]
    · rcases charListLe_total as bs with ih | ih
      · left; simp [charListLe, h, ih]
      · right; simp [charListLe, h.symm, ih]
    · right; simp [charListLe, h]

theorem charListLe_antisymm : ∀ (as bs : List Char), charListLe as bs = true →
    charListLe bs as = true → as = bs
  | [], [] => by intro _ _; rfl
  | [], _ :: _ => by intro _ h₂; simp [charListLe] at h₂
  | _ :: _, [] => by intro h₁ _; simp [charListLe] at h₁
  | a :: as, b :: bs => by
    intro h₁ h₂
    rcases Nat.lt_trichotomy a.toNat b.toNat with h | h | h
    · simp [charListLe, h, Nat.lt_asymm h] at h₂
    · have hab : a = b := char_eq_of_toNat_eq a b h
      subst hab
      simp [charListLe] at h₁ h₂
      rw [charListLe_antisymm as bs h₁ h₂]
    · simp [charListLe, h, Nat.lt_asymm h] at h₁

theorem strLe_total (a b : String) : strLe a b = true ∨ strLe b a = true :=
  charListLe_total a.data b.data

theorem strLe_antisymm (a b : String) (h₁ : strLe a b = true) (h₂ : strLe b a = true) :
    a = b := by
  have h : a.data = b.data := charListLe_antisymm a.data b.data h₁ h₂
  cases a
  cases b
  exact congrArg String.mk h

theorem edgeKey_cases (a b : String) : edgeKey a b = (a, b) ∨ edgeKey a b = (b, a) := by
  unfold edgeKey
  by_cases h : strLe a b = true
  · left; simp [h]
  · right; simp [h]

theorem edgeKey_comm (a b : String) : edgeKey a b = edgeKey b a := by
  by_cases h₁ : strLe a b = true
  · by_cases h₂ : strLe b a = true
    · have hab : a = b := strLe_antisymm a b h₁ h₂
      subst hab
      rfl
    · simp [edgeKey, h₁, h₂]
  · rcases strLe_total a b with h | h
    · exact absurd h h₁
    · simp [edgeKey, h₁, h]

theorem edgeKey_inj (a b c d : String) (h : edgeKey a b = edgeKey c d) :
    (a = c ∧ b = d) ∨ (a = d ∧ b = c) := by
  rcases edgeKey_cases a b with h₁ | h₁ <;> rcases edgeKey_cases c d with h₂ | h₂ <;>
    rw [h₁, h₂] at h <;> rcases Prod.mk.injEq .. ▸ h with ⟨rfl, rfl⟩
  · exact Or.inl ⟨rfl, rfl⟩
  · exact Or.inr ⟨rfl, rfl⟩
  · exact Or.inr ⟨rfl, rfl⟩
  · exact Or.inl ⟨rfl, rfl⟩

/-! ## Lemmas on the node map -/

theorem lookupNode_addNode (G : Graph) (n : String) (a : NodeAttrs) (s : String) :
    lookupNode (addNode G n a) s = if s = n then some a else lookupNode G s := by
  induction G with
  | nil =>
    simp only [addNode, lookupNode]
    by_cases h : s = n
    · rw [if_pos h.symm, if_pos h]
    · rw [if_neg (fun hc => h hc.symm), if_neg h]
  | cons p rest ih =>
    obtain ⟨m, b⟩ := p
    by_cases hmn : m = n
    · subst hmn
      simp only [addNode, if_pos rfl, lookupNode]
      by_cases hs : s = m
      · rw [if_pos hs.symm, if_pos hs]
      · rw [if_neg (fun hc => hs hc.symm), if_neg hs, if_neg (fun hc => hs hc.symm)]
    · simp only [addNode, if_neg hmn, lookupNode]
      by_cases hs : m = s
      · subst hs
        rw [if_pos rfl, if_neg hmn, if_pos rfl]
      · rw [if_neg hs, ih, if_neg hs]

theorem keysOf_addNode (G : Graph) (n : String) (a : NodeAttrs) :
    keysOf (addNode G n a) = if n ∈ keysOf G then keysOf G else keysOf G ++ [n] := by
  induction G with
  | nil => simp [addNode, keysOf]
  | cons p rest ih =>
    obtain ⟨m, b⟩ := p
    by_cases hmn : m = n
    · subst hmn
      simp [addNode, keysOf]
    · have hcond : (n ∈ keysOf ((m, b) :: rest)) ↔ (n ∈ keysOf rest) := by
        simp only [keysOf, List.map_cons, List.mem_cons]
        constructor
        · rintro (h | h)
          · exact absurd h.symm hmn
          · exact h
        · exact Or.inr
      by_cases hmem : n ∈ keysOf rest
      · rw [if_pos (hcond.mpr hmem)]
        simp only [addNode, if_neg hmn, keysOf, List.map_cons]
        rw [show List.map Prod.fst (addNode rest n a) = keysOf rest by
          rw [show List.map Prod.fst (addNode rest n a) = keysOf (addNode rest n a) from rfl,
            ih, if_pos hmem]]
        rfl
      · rw [if_neg (fun hc => hmem (hcond.mp hc))]
        simp only [addNode, if_neg hmn, keysOf, List.map_cons]
        rw [show List.map Prod.fst (addNode rest n a) = keysOf rest ++ [n] by
          rw [show List.map Prod.fst (addNode rest n a) = keysOf (addNode rest n a) from rfl,
            ih, if_neg hmem]]
        rfl

theorem mem_addNode (G : Graph) (n : String) (a : NodeAttrs) (p : String × NodeAttrs)
    (h : p ∈ addNode G n a) : p ∈ G ∨ p = (n, a) := by
  induction G with
  | nil =>
    simp [addNode] at h
    exact Or.inr h
  | cons q rest ih =>
    obtain ⟨m, b⟩ := q
    by_cases hmn : m = n
    · subst hmn
      simp [addNode] at h
      rcases h with h | h
      · exact Or.inr (by rw [h])
      · exact Or.inl (List.mem_cons_of_mem _ h)
    · simp [addNode, hmn] at h
      rcases h with h | h
      · exact Or.inl (by rw [h]; exact List.mem_cons_self _ _)
      · rcases ih h with h₂ | h₂
        · exact Or.inl (List.mem_cons_of_mem _ h₂)
        · exact Or.inr h₂

theorem nodup_keysOf_addNode (G : Graph) (n : String) (a : NodeAttrs)
    (h : (keysOf G).Nodup) : (keysOf (addNode G n a)).Nodup := by
  rw [keysOf_addNode]
  by_cases hmem : n ∈ keysOf G
  · simpa [hmem] using h
  · simp only [if_neg hmem]
    simp [List.nodup_append, h, hmem, List.disjoint_singleton]

/-! ## Lemmas on the edge map -/

theorem lookupEdge_appendEdgeLabel (E : EdgeMap) (k : EdgeKey) (lbl : String) (k₂ : EdgeKey) :
    lookupEdge (appendEdgeLabel E k lbl) k₂ =
      if k₂ = k then some (getEdge E k ++ [lbl]) else lookupEdge E k₂ := by
  induction E with
  | nil =>
    by_cases h : k₂ = k
    · subst h; simp [appendEdgeLabel, lookupEdge, getEdge]
    · have hne : ¬ k = k₂ := fun hc => h hc.symm
      simp [appendEdgeLabel, lookupEdge, getEdge, h, hne]
  | cons p rest ih =>
    obtain ⟨k₀, ls⟩ := p
    by_cases hk : k₀ = k
    · subst hk
      by_cases h₂ : k₂ = k₀
      · subst h₂; simp [appendEdgeLabel, lookupEdge, getEdge]
      · have hne : ¬ k₀ = k₂ := fun hc => h₂ hc.symm
        simp [appendEdgeLabel, lookupEdge, getEdge, h₂, hne]
    · by_cases h₂ : k₂ = k
      · subst h₂
        simp [appendEdgeLabel, lookupEdge, getEdge, hk, ih]
      · by_cases h₀ : k₀ = k₂
        · subst h₀
          simp [appendEdgeLabel, lookupEdge, getEdge, hk, h₂]
        · simp [appendEdgeLabel, lookupEdge, getEdge, hk, h₂, h₀, ih]

theorem getEdge_appendEdgeLabel (E : EdgeMap) (k : EdgeKey) (lbl : String) (k₂ : EdgeKey) :
    getEdge (appendEdgeLabel E k lbl) k₂ =
      if k₂ = k then getEdge E k ++ [lbl] else getEdge E k₂ := by
  by_cases h : k₂ = k <;> simp [getEdge, lookupEdge_appendEdgeLabel, h]

theorem keysOf_appendEdgeLabel (E : EdgeMap) (k : EdgeKey) (lbl : String) :
    keysOf (appendEdgeLabel E k lbl) =
      if k ∈ keysOf E then keysOf E else keysOf E ++ [k] := by
  induction E with
  | nil => simp [appendEdgeLabel, keysOf]
  | cons p rest ih =>
    obtain ⟨k₀, ls⟩ := p
    by_cases hk : k₀ = k
    · subst hk
      simp [appendEdgeLabel, keysOf]
    · have hcond : (k ∈ keysOf ((k₀, ls) :: rest)) ↔ (k ∈ keysOf rest) := by
        simp only [keysOf, List.map_cons, List.mem_cons]
        constructor
        · rintro (h | h)
          · exact absurd h.symm hk
          · exact h
        · exact Or.inr
      by_cases hmem : k ∈ keysOf rest
      · rw [if_pos (hcond.mpr hmem)]
        simp only [appendEdgeLabel, if_neg hk, keysOf, List.map_cons]
        rw [show List.map Prod.fst (appendEdgeLabel rest k lbl) = keysOf rest by
          rw [show List.map Prod.fst (appendEdgeLabel rest k lbl) =
            keysOf (appendEdgeLabel rest k lbl) from rfl, ih, if_pos hmem]]
        rfl
      · rw [if_neg (fun hc => hmem (hcond.mp hc))]
        simp only [appendEdgeLabel, if_neg hk, keysOf, List.map_cons]
        rw [show List.map Prod.fst (appendEdgeLabel rest k lbl) = keysOf rest ++ [k] by
          rw [show List.map Prod.fst (appendEdgeLabel rest k lbl) =
            keysOf (appendEdgeLabel rest k lbl) from rfl, ih, if_neg hmem]]
        rfl

theorem nodup_keysOf_appendEdgeLabel (E : EdgeMap) (k : EdgeKey) (lbl : String)
    (h : (keysOf E).Nodup) : (keysOf (appendEdgeLabel E k lbl)).Nodup := by
  rw [keysOf_appendEdgeLabel]
  by_cases hmem : k ∈ keysOf E
  · simpa [hmem] using h
  · simp only [if_neg hmem]
    simp [List.nodup_append, h, hmem, List.disjoint_singleton]

/-! ## Replay decomposition of the builder -/

theorem writesFor_cons {α β : Type} [DecidableEq α] (x : α) (b : β) (ws : List (α × β)) (y : α) :
    writesFor ((x, b) :: ws) y = if x = y then b :: writesFor ws y else writesFor ws y := by
  by_cases h : x = y <;> simp [writesFor, h]

theorem writesFor_append {α β : Type} [DecidableEq α] (ws₁ ws₂ : List (α × β)) (x : α) :
    writesFor (ws₁ ++ ws₂) x = writesFor ws₁ x ++ writesFor ws₂ x := by
  simp [writesFor, List.filter_append]

theorem lastOf_append {α : Type} (l₁ l₂ : List α) :
    lastOf (l₁ ++ l₂) = overrideWith (lastOf l₂) (lastOf l₁) := by
  induction l₁ with
  | nil => cases h : lastOf l₂ <;> simp [lastOf, overrideWith, h]
  | cons a l₁ ih =>
    cases h₁ : lastOf l₁ <;> cases h₂ : lastOf l₂ <;>
      simp [lastOf, ih, overrideWith, h₁, h₂]

theorem processRecord_eq (st : BuildState) (r : CircuitData) :
    processRecord st r =
      ⟨applyNodeWrites st.G (nodeWrites r), applyEdgeWrites st.E (edgeWrites r)⟩ := by
  by_cases hc : isCloudProduct r = true <;> by_cases hb : r.SITE_ID_B = "" <;>
    simp [processRecord, nodeWrites, edgeWrites, applyNodeWrites, applyEdgeWrites, hc, hb]

theorem foldl_processRecord_decomp :
    ∀ (recs : List CircuitData) (st : BuildState),
      recs.foldl processRecord st =
        ⟨applyNodeWrites st.G (recs.flatMap nodeWrites),
         applyEdgeWrites st.E (recs.flatMap edgeWrites)⟩
  | [], st => by simp [applyNodeWrites, applyEdgeWrites]
  | r :: rest, st => by
    simp only [List.foldl_cons, List.flatMap_cons]
    rw [foldl_processRecord_decomp rest (processRecord st r), processRecord_eq]
    simp [applyNodeWrites, applyEdgeWrites, List.foldl_append]

theorem buildTopology_G (recs : List CircuitData) :
    (buildTopology recs).G = applyNodeWrites [] (recs.flatMap nodeWrites) := by
  rw [buildTopology, foldl_processRecord_decomp]

theorem buildTopology_E (recs : List CircuitData) :
    (buildTopology recs).E = applyEdgeWrites [] (recs.flatMap edgeWrites) := by
  rw [buildTopology, foldl_processRecord_decomp]

theorem lookupNode_applyNodeWrites (G : Graph) (ws : List (String × NodeAttrs)) (s : String) :
    lookupNode (applyNodeWrites G ws) s =
      overrideWith (lastOf (writesFor ws s)) (lookupNode G s) := by
  induction ws generalizing G with
  | nil => simp [applyNodeWrites, writesFor, lastOf, overrideWith]
  | cons w rest ih =>
    obtain ⟨n, a⟩ := w
    rw [show applyNodeWrites G ((n, a) :: rest) = applyNodeWrites (addNode G n a) rest from rfl,
      ih, lookupNode_addNode, writesFor_cons]
    by_cases hns : n = s
    · subst hns
      rw [if_pos rfl, if_pos rfl]
      cases h : lastOf (writesFor rest n) <;> simp [lastOf, overrideWith, h]
    · rw [if_neg (fun hc => hns hc.symm), if_neg hns]

theorem getEdge_applyEdgeWrites (E : EdgeMap) (ws : List (EdgeKey × String)) (k : EdgeKey) :
    getEdge (applyEdgeWrites E ws) k = getEdge E k ++ writesFor ws k := by
  induction ws generalizing E with
  | nil => simp [applyEdgeWrites, writesFor]
  | cons w rest ih =>
    obtain ⟨k₀, lbl⟩ := w
    rw [show applyEdgeWrites E ((k₀, lbl) :: rest) =
      applyEdgeWrites (appendEdgeLabel E k₀ lbl) rest from rfl, ih,
      getEdge_appendEdgeLabel, writesFor_cons]
    by_cases h : k₀ = k
    · subst h
      rw [if_pos rfl, if_pos rfl, List.append_assoc]
      rfl
    · rw [if_neg (fun hc => h hc.symm), if_neg h]

theorem mem_keysOf_applyEdgeWrites (E : EdgeMap) (ws : List (EdgeKey × String)) (k : EdgeKey) :
    k ∈ keysOf (applyEdgeWrites E ws) ↔ k ∈ keysOf E ∨ k ∈ keysOf ws := by
  induction ws generalizing E with
  | nil => simp [applyEdgeWrites, keysOf]
  | cons w rest ih =>
    obtain ⟨k₀, lbl⟩ := w
    rw [show applyEdgeWrites E ((k₀, lbl) :: rest) =
      applyEdgeWrites (appendEdgeLabel E k₀ lbl) rest from rfl, ih, keysOf_appendEdgeLabel]
    by_cases hmem : k₀ ∈ keysOf E
    · rw [if_pos hmem]
      simp only [keysOf, List.map_cons, List.mem_cons]
      constructor
      · rintro (h | h)
        · exact Or.inl h
        · exact Or.inr (Or.inr h)
      · rintro (h | rfl | h)
        · exact Or.inl h
        · exact Or.inl hmem
        · exact Or.inr h
    · rw [if_neg hmem]
      simp only [keysOf, List.map_cons, List.mem_cons, List.mem_append]
      constructor
      · rintro ((h | h | h) | h)
        · exact Or.inl h
        · exact Or.inr (Or.inl h)
        · exact absurd h (List.not_mem_nil k)
        · exact Or.inr (Or.inr h)
      · rintro (h | h | h)
        · exact Or.inl (Or.inl h)
        · exact Or.inl (Or.inr (Or.inl h))
        · exact Or.inr h

theorem nodup_keysOf_applyNodeWrites (G : Graph) (ws : List (String × NodeAttrs))
    (h : (keysOf G).Nodup) : (keysOf (applyNodeWrites G ws)).Nodup := by
  induction ws generalizing G with
  | nil => exact h
  | cons w rest ih =>
    exact ih (addNode G w.1 w.2) (nodup_keysOf_addNode G w.1 w.2 h)

theorem nodup_keysOf_applyEdgeWrites (E : EdgeMap) (ws : List (EdgeKey × String))
    (h : (keysOf E).Nodup) : (keysOf (applyEdgeWrites E ws)).Nodup := by
  induction ws generalizing E with
  | nil => exact h
  | cons w rest ih =>
    exact ih (appendEdgeLabel E w.1 w.2) (nodup_keysOf_appendEdgeLabel E w.1 w.2 h)

theorem nodup_keysOf_buildTopology_G (recs : List CircuitData) :
    (keysOf (buildTopology recs).G).Nodup := by
  rw [buildTopology_G]
  exact nodup_keysOf_applyNodeWrites [] _ (by simp [keysOf])

theorem nodup_keysOf_buildTopology_E (recs : List CircuitData) :
    (keysOf (buildTopology recs).E).Nodup := by
  rw [buildTopology_E]
  exact nodup_keysOf_applyEdgeWrites [] _ (by simp [keysOf])

theorem lookupNode_eq_of_mem (G : Graph) (h : (keysOf G).Nodup) (n : String)
    (a : NodeAttrs) (hm : (n, a) ∈ G) : lookupNode G n = some a := by
  induction G with
  | nil => simp at hm
  | cons p rest ih =>
    obtain ⟨m, b⟩ := p
    simp only [keysOf, List.map_cons, List.nodup_cons] at h
    rcases List.mem_cons.mp hm with hh | ht
    · injection hh with h₁ h₂
      subst h₁
      subst h₂
      simp [lookupNode]
    · have hne : ¬ m = n := by
        intro hc
        subst hc
        exact h.1 (by simpa using List.mem_map_of_mem Prod.fst ht)
      simp only [lookupNode, if_neg hne]
      exact ih h.2 ht

theorem lookupEdge_eq_of_mem (E : EdgeMap) (h : (keysOf E).Nodup) (k : EdgeKey)
    (ls : List String) (hm : (k, ls) ∈ E) : lookupEdge E k = some ls := by
  induction E with
  | nil => simp at hm
  | cons p rest ih =>
    obtain ⟨k₀, ls₀⟩ := p
    simp only [keysOf, List.map_cons, List.nodup_cons] at h
    rcases List.mem_cons.mp hm with hh | ht
    · injection hh with h₁ h₂
      subst h₁
      subst h₂
      simp [lookupEdge]
    · have hne : ¬ k₀ = k := by
        intro hc
        subst hc
        exact h.1 (by simpa using List.mem_map_of_mem Prod.fst ht)
      simp only [lookupEdge, if_neg hne]
      exact ih h.2 ht

/-! ## Lemmas on node insertion order and last-write attribute values -/

theorem keysOf_applyNodeWrites (G : Graph) (ws : List (String × NodeAttrs)) :
    keysOf (applyNodeWrites G ws) = firstOccurAux (keysOf G) (keysOf ws) := by
  induction ws generalizing G with
  | nil => rfl
  | cons w rest ih =>
    obtain ⟨n, a⟩ := w
    rw [show applyNodeWrites G ((n, a) :: rest) = applyNodeWrites (addNode G n a) rest from rfl,
      ih, keysOf_addNode]
    rfl

theorem lastOf_map {α β : Type} (f : α → β) (l : List α) :
    lastOf (l.map f) = (lastOf l).map f := by
  induction l with
  | nil => rfl
  | cons a l ih =>
    cases h : lastOf l <;> simp [lastOf, ih, h]

theorem writesFor_flatMap (recs : List CircuitData) (f : CircuitData → List (String × NodeAttrs))
    (s : String) :
    writesFor (recs.flatMap f) s = recs.flatMap (fun r => writesFor (f r) s) := by
  induction recs with
  | nil => rfl
  | cons r rest ih => simp [List.flatMap_cons, writesFor_append, ih]

theorem writesFor_nodeWrites (r : CircuitData) (s : String) (hs : s ≠ cloudId) :
    writesFor (nodeWrites r) s =
      (recordMentions r s).map (fun b => NodeAttrs.mk b (classifyRole b)) := by
  have hcs : ¬ (cloudId = s) := fun hc => hs hc.symm
  by_cases hc : isCloudProduct r = true <;> by_cases hb : r.SITE_ID_B = "" <;>
    by_cases ha : r.SITE_ID_A = s <;> by_cases hbs : r.SITE_ID_B = s <;>
    simp [nodeWrites, recordMentions, writesFor, hc, hb, ha, hbs, hcs]
  all_goals
    have hsne : ¬ s = "" := hbs ▸ hb
    simp [hsne, ha, List.filter]

theorem lookupNode_buildTopology_mentions (recs : List CircuitData) (s : String)
    (hs : s ≠ cloudId) :
    lookupNode (buildTopology recs).G s =
      (lastOf (mentions recs s)).map (fun b => NodeAttrs.mk b (classifyRole b)) := by
  rw [buildTopology_G, lookupNode_applyNodeWrites, writesFor_flatMap]
  have hmap : (recs.flatMap (fun r => writesFor (nodeWrites r) s)) =
      (mentions recs s).map (fun b => NodeAttrs.mk b (classifyRole b)) := by
    rw [mentions]
    induction recs with
    | nil => rfl
    | cons r rest ih =>
      simp only [List.flatMap_cons, List.map_append, ih]
      rw [writesFor_nodeWrites r s hs]
  rw [hmap, lastOf_map]
  cases lastOf (mentions recs s) <;> rfl

/-! ## Lemmas on the layout engine -/

theorem keysOf_assignYAux (xPos startY spacing : ℚ) :
    ∀ (i : ℕ) (nodes : List String), keysOf (assignYAux xPos startY spacing i nodes) = nodes
  | _, [] => rfl
  | i, n :: rest => by
    simp only [assignYAux, keysOf, List.map_cons]
    rw [show List.map Prod.fst (assignYAux xPos startY spacing (i + 1) rest) =
      keysOf (assignYAux xPos startY spacing (i + 1) rest) from rfl,
      keysOf_assignYAux xPos startY spacing (i + 1) rest]

theorem keysOf_assignYPositions (nodes : List String) (xPos : ℚ) :
    keysOf (assignYPositions nodes xPos) = nodes := by
  by_cases h : nodes.isEmpty
  · rw [List.isEmpty_iff] at h
    subst h
    rfl
  · simp only [assignYPositions, if_neg h]
    exact keysOf_assignYAux _ _ _ 0 nodes

theorem lookupPos_append (l₁ l₂ : List (String × ℚ × ℚ)) (n : String) :
    lookupPos (l₁ ++ l₂) n = overrideWith (lookupPos l₁ n) (lookupPos l₂ n) := by
  induction l₁ with
  | nil => rfl
  | cons p rest ih =>
    obtain ⟨m, q⟩ := p
    by_cases hm : m = n
    · simp [lookupPos, hm, overrideWith]
    · simp [lookupPos, hm, ih]

theorem lookupPos_assignYAux_mem (xPos startY spacing : ℚ) (n : String) :
    ∀ (nodes : List String) (i : ℕ), n ∈ nodes →
      lookupPos (assignYAux xPos startY spacing i nodes) n =
        some (xPos, startY + ((i : ℚ) + (idxOf n nodes : ℚ)) * spacing)
  | [], _, hn => absurd hn (List.not_mem_nil n)
  | m :: rest, i, hn => by
    by_cases hm : m = n
    · simp only [assignYAux, lookupPos, if_pos hm, idxOf, hm]
      norm_num
    · have hn₂ : n ∈ rest := by
        rcases List.mem_cons.mp hn with h | h
        · exact absurd h.symm hm
        · exact h
      simp only [assignYAux, lookupPos, if_neg hm, idxOf, if_neg hm]
      rw [lookupPos_assignYAux_mem xPos startY spacing n rest (i + 1) hn₂]
      congr 2
      push_cast
      ring

theorem lookupPos_assignYAux_notMem (xPos startY spacing : ℚ) (n : String) :
    ∀ (nodes : List String) (i : ℕ), n ∉ nodes →
      lookupPos (assignYAux xPos startY spacing i nodes) n = none
  | [], _, _ => rfl
  | m :: rest, i, hn => by
    have hm : ¬ m = n := fun hc => hn (hc ▸ List.mem_cons_self m rest)
    simp only [assignYAux, lookupPos, if_neg hm]
    exact lookupPos_assignYAux_notMem xPos startY spacing n rest (i + 1)
      (fun hc => hn (List.mem_cons_of_mem m hc))

theorem lookupPos_assignYPositions_mem (nodes : List String) (xPos : ℚ) (n : String)
    (hn : n ∈ nodes) :
    lookupPos (assignYPositions nodes xPos) n =
      some (xPos, yFromSpec nodes.length (idxOf n nodes)) := by
  have hne : ¬ nodes.isEmpty = true := by
    intro hc
    rw [List.isEmpty_iff] at hc
    subst hc
    exact List.not_mem_nil n hn
  simp only [assignYPositions, if_neg hne]
  rw [lookupPos_assignYAux_mem _ _ _ n nodes 0 hn]
  congr 2
  rw [yFromSpec]
  push_cast
  ring

theorem lookupPos_assignYPositions_notMem (nodes : List String) (xPos : ℚ) (n : String)
    (hn : n ∉ nodes) : lookupPos (assignYPositions nodes xPos) n = none := by
  by_cases h : nodes.isEmpty
  · rw [List.isEmpty_iff] at h
    subst h
    rfl
  · simp only [assignYPositions, if_neg h]
    exact lookupPos_assignYAux_notMem _ _ _ n nodes 0 hn

theorem mem_mapfst_filter (G : Graph) (f : String × NodeAttrs → Bool) (n : String) :
    n ∈ (G.filter f).map Prod.fst ↔ ∃ a, (n, a) ∈ G ∧ f (n, a) = true := by
  simp only [List.mem_map, List.mem_filter]
  constructor
  · rintro ⟨⟨n₀, a⟩, ⟨hmem, hf⟩, rfl⟩
    exact ⟨a, hmem, hf⟩
  · rintro ⟨a, hmem, hf⟩
    exact ⟨(n, a), ⟨hmem, hf⟩, rfl⟩

theorem attrs_unique (G : Graph) (h : (keysOf G).Nodup) (n : String) (a b : NodeAttrs)
    (ha : (n, a) ∈ G) (hb : (n, b) ∈ G) : a = b := by
  have h₁ := lookupNode_eq_of_mem G h n a ha
  have h₂ := lookupNode_eq_of_mem G h n b hb
  exact Option.some_injective _ (h₁.symm.trans h₂)

/-! ## Small helper lemmas for the claim theorems -/

theorem overrideWith_none {α : Type} (x : Option α) : overrideWith none x = x := rfl

theorem overrideWith_some {α : Type} (a : α) (x : Option α) :
    overrideWith (some a) x = some a := rfl

theorem classifyRole_ne_cloud (building : String) : classifyRole building ≠ "cloud" := by
  rw [classifyRole]
  split <;> decide

theorem mem_applyNodeWrites (G : Graph) (ws : List (String × NodeAttrs))
    (p : String × NodeAttrs) (h : p ∈ applyNodeWrites G ws) : p ∈ G ∨ p ∈ ws := by
  induction ws generalizing G with
  | nil => exact Or.inl h
  | cons w rest ih =>
    rcases ih (addNode G w.1 w.2) h with h₂ | h₂
    · rcases mem_addNode G w.1 w.2 p h₂ with h₃ | h₃
      · exact Or.inl h₃
      · exact Or.inr (h₃ ▸ List.mem_cons_self w rest)
    · exact Or.inr (List.mem_cons_of_mem w h₂)

theorem nodeWrites_role_cloud (r : CircuitData) (p : String × NodeAttrs)
    (hp : p ∈ nodeWrites r) (hrole : p.2.role = "cloud") : p.1 = cloudId := by
  have hA : p = (r.SITE_ID_A, NodeAttrs.mk r.BUILDING_A (classifyRole r.BUILDING_A)) →
      p.1 = cloudId := by
    intro h
    rw [h] at hrole
    exact absurd hrole (classifyRole_ne_cloud _)
  have hB : p = (r.SITE_ID_B, NodeAttrs.mk r.BUILDING_B (classifyRole r.BUILDING_B)) →
      p.1 = cloudId := by
    intro h
    rw [h] at hrole
    exact absurd hrole (classifyRole_ne_cloud _)
  have hC : p = (cloudId, NodeAttrs.mk cloudDisplayLabel "cloud") → p.1 = cloudId := by
    intro h
    rw [h]
  simp only [nodeWrites] at hp
  by_cases hc : isCloudProduct r = true
  · rw [if_pos hc] at hp
    rcases List.mem_cons.mp hp with h | hp₂
    · exact hA h
    rcases List.mem_cons.mp hp₂ with h | hp₃
    · exact hC h
    by_cases hb : r.SITE_ID_B ≠ ""
    · rw [if_pos hb] at hp₃
      rcases List.mem_cons.mp hp₃ with h | h₄
      · exact hB h
      · exact absurd h₄ (List.not_mem_nil p)
    · rw [if_neg hb] at hp₃
      exact absurd hp₃ (List.not_mem_nil p)
  · rw [if_neg hc] at hp
    by_cases hb : r.SITE_ID_B ≠ ""
    · rw [if_pos hb] at hp
      rcases List.mem_cons.mp hp with h | hp₂
      · exact hA h
      rcases List.mem_cons.mp hp₂ with h | h₃
      · exact hB h
      · exact absurd h₃ (List.not_mem_nil p)
    · rw [if_neg hb] at hp
      rcases List.mem_cons.mp hp with h | h₂
      · exact hA h
      · exact absurd h₂ (List.not_mem_nil p)

theorem writesFor_ne_nil_of_mem_keysOf {α β : Type} [DecidableEq α] (ws : List (α × β))
    (a : α) (h : a ∈ keysOf ws) : writesFor ws a ≠ [] := by
  induction ws with
  | nil => simp [keysOf] at h
  | cons w rest ih =>
    obtain ⟨x, b⟩ := w
    rw [writesFor_cons]
    by_cases hx : x = a
    · simp [hx]
    · rw [if_neg hx]
      apply ih
      rcases List.mem_cons.mp h with h₂ | h₂
      · exact absurd h₂.symm hx
      · exact h₂

/-! ## Claim C3 -/

/-- Counterexample to claim C3 as stated: a record whose required field
productType is present but equals the empty string passes validation with
no ValidationError, although the claim demands failure when a required
field is missing or is the empty string. -/
theorem C3_counterexample :
    validateCircuit ⟨some "", some "C1", some "S1", some "B1", none, none, none⟩ =
      .ok ⟨"", "C1", "S1", "B1", "", "", ""⟩ := rfl

/-- Claim C3, amended: the Normalizer fails with a ValidationError if and
only if at least one of the required fields productType, circuitId,
siteIdA, buildingA is absent (the empty string is accepted as a present
value of a required field); when all required fields are present it
produces the canonical record in which absent optional fields become
empty strings. -/
theorem C3_theorem (raw : RawCircuit) :
    (validateCircuit raw = .error "ValidationError" ↔
      (raw.PRODUCT_TYPE = none ∨ raw.CIRCUIT_ID = none ∨
        raw.SITE_ID_A = none ∨ raw.BUILDING_A = none)) ∧
    (∀ pt ci sa ba : String,
      validateCircuit ⟨some pt, some ci, some sa, some ba,
          raw.SITE_ID_B, raw.BUILDING_B, raw.ROUTER_NAME⟩ =
        .ok ⟨pt, ci, sa, ba, raw.SITE_ID_B.getD "", raw.BUILDING_B.getD "",
          raw.ROUTER_NAME.getD ""⟩) := by
  constructor
  · cases hpt : raw.PRODUCT_TYPE <;> cases hci : raw.CIRCUIT_ID <;>
      cases hsa : raw.SITE_ID_A <;> cases hba : raw.BUILDING_A <;>
      simp [validateCircuit, hpt, hci, hsa, hba]
  · intro pt ci sa ba
    rfl

/-! ## Claim C6 -/

/-- Claim C6, confirmed: edge keys are canonicalized unordered pairs: the
key built from (a, b) equals the key built from (b, a), so appending a
circuit label under either orientation updates the same map entry, and
the key is the lexicographically sorted arrangement of the two
identities. -/
theorem C6_theorem (a b : String) (E : EdgeMap) (lbl : String) :
    edgeKey a b = edgeKey b a ∧
    appendEdgeLabel E (edgeKey a b) lbl = appendEdgeLabel E (edgeKey b a) lbl ∧
    strLe (edgeKey a b).1 (edgeKey a b).2 = true ∧
    (edgeKey a b = (a, b) ∨ edgeKey a b = (b, a)) := by
  refine ⟨edgeKey_comm a b, by rw [edgeKey_comm], ?_, edgeKey_cases a b⟩
  by_cases h : strLe a b = true
  · simp [edgeKey, h]
  · rcases strLe_total a b with h₂ | h₂
    · exact absurd h₂ h
    · simp [edgeKey, h, h₂]

/-! ## Claim C5 -/

/-- Claim C5, confirmed: a record whose product type matches no
shared-network marker and whose endpoint B is present produces exactly one
edge-key update, at the unordered pair (A, B), appending the circuit
label there and leaving every other key unchanged, and registers no cloud
node; when endpoint B is absent only node A is registered and the edge
map is untouched. -/
theorem C5_theorem (st : BuildState) (r : CircuitData) (hc : isCloudProduct r = false) :
    (r.SITE_ID_B ≠ "" →
      (processRecord st r).G =
        addNode (addNode st.G r.SITE_ID_A ⟨r.BUILDING_A, classifyRole r.BUILDING_A⟩)
          r.SITE_ID_B ⟨r.BUILDING_B, classifyRole r.BUILDING_B⟩ ∧
      getEdge (processRecord st r).E (edgeKey r.SITE_ID_A r.SITE_ID_B) =
        getEdge st.E (edgeKey r.SITE_ID_A r.SITE_ID_B) ++ [circuitLabel r] ∧
      (∀ k : EdgeKey, k ≠ edgeKey r.SITE_ID_A r.SITE_ID_B →
        getEdge (processRecord st r).E k = getEdge st.E k) ∧
      (cloudId ≠ r.SITE_ID_A → cloudId ≠ r.SITE_ID_B →
        lookupNode (processRecord st r).G cloudId = lookupNode st.G cloudId)) ∧
    (r.SITE_ID_B = "" →
      (processRecord st r).G =
        addNode st.G r.SITE_ID_A ⟨r.BUILDING_A, classifyRole r.BUILDING_A⟩ ∧
      (processRecord st r).E = st.E) := by
  constructor
  · intro hb
    have hE : (processRecord st r).E =
        appendEdgeLabel st.E (edgeKey r.SITE_ID_A r.SITE_ID_B) (circuitLabel r) := by
      simp [processRecord, hc, hb]
    have hG : (processRecord st r).G =
        addNode (addNode st.G r.SITE_ID_A ⟨r.BUILDING_A, classifyRole r.BUILDING_A⟩)
          r.SITE_ID_B ⟨r.BUILDING_B, classifyRole r.BUILDING_B⟩ := by
      simp [processRecord, hc, hb]
    refine ⟨hG, ?_, ?_, ?_⟩
    · rw [hE, getEdge_appendEdgeLabel, if_pos rfl]
    · intro k hk
      rw [hE, getEdge_appendEdgeLabel, if_neg hk]
    · intro h₁ h₂
      rw [hG, lookupNode_addNode, if_neg h₂, lookupNode_addNode, if_neg h₁]
  · intro hb
    constructor <;> simp [processRecord, hc, hb]

/-- Witness for claim C5 at a concrete point-to-point record: the
LEASEDLINE example of the specification, applied to the empty build
state. -/
theorem C5_witness :
    getEdge (processRecord ⟨[], []⟩ ⟨"LEASEDLINE", "C2", "S1", "B1", "S2", "B2", ""⟩).E
      (edgeKey "S1" "S2") = ["LEASEDLINE [C2]"] := by
  have h := (C5_theorem ⟨[], []⟩ ⟨"LEASEDLINE", "C2", "S1", "B1", "S2", "B2", ""⟩
    (by decide)).1 (by decide)
  rw [h.2.1]
  decide

/-! ## Claim C2 -/

/-- Counterexample to claim C2 as stated: a shared-network record whose
two endpoints carry the same site identity produces exactly one edge key
(the pair of that site and the cloud node), not two; the single key
receives the circuit label twice. -/
theorem C2_counterexample :
    isCloudProduct ⟨"MPLS", "C1", "S1", "B1", "S1", "B1", ""⟩ = true ∧
    (CircuitData.mk "MPLS" "C1" "S1" "B1" "S1" "B1" "").SITE_ID_B ≠ "" ∧
    (buildTopology [⟨"MPLS", "C1", "S1", "B1", "S1", "B1", ""⟩]).E =
      [(("Cloud_Network", "S1"), ["MPLS [C1]", "MPLS [C1]"])] ∧
    (keysOf (buildTopology [⟨"MPLS", "C1", "S1", "B1", "S1", "B1", ""⟩]).E).length = 1 := by
  refine ⟨by decide, by decide, by decide, by decide⟩

/-- Claim C2, amended: a shared-network record with endpoint B present
appends its circuit label to (A, cloud) and then to (B, cloud); when the
two endpoint identities differ these are two distinct edge keys, each
receiving the label once, every other key is unchanged, and (when neither
endpoint equals the synthetic cloud identity) the direct (A, B) key is
untouched; when the two endpoint identities coincide, both appends land
on the single key (A, cloud), which receives the label twice. -/
theorem C2_theorem (st : BuildState) (r : CircuitData) (hc : isCloudProduct r = true)
    (hb : r.SITE_ID_B ≠ "") :
    (r.SITE_ID_A ≠ r.SITE_ID_B →
      edgeKey r.SITE_ID_A cloudId ≠ edgeKey r.SITE_ID_B cloudId ∧
      getEdge (processRecord st r).E (edgeKey r.SITE_ID_A cloudId) =
        getEdge st.E (edgeKey r.SITE_ID_A cloudId) ++ [circuitLabel r] ∧
      getEdge (processRecord st r).E (edgeKey r.SITE_ID_B cloudId) =
        getEdge st.E (edgeKey r.SITE_ID_B cloudId) ++ [circuitLabel r] ∧
      (∀ k : EdgeKey, k ≠ edgeKey r.SITE_ID_A cloudId → k ≠ edgeKey r.SITE_ID_B cloudId →
        getEdge (processRecord st r).E k = getEdge st.E k) ∧
      (r.SITE_ID_A ≠ cloudId → r.SITE_ID_B ≠ cloudId →
        getEdge (processRecord st r).E (edgeKey r.SITE_ID_A r.SITE_ID_B) =
          getEdge st.E (edgeKey r.SITE_ID_A r.SITE_ID_B))) ∧
    (r.SITE_ID_A = r.SITE_ID_B →
      getEdge (processRecord st r).E (edgeKey r.SITE_ID_A cloudId) =
        getEdge st.E (edgeKey r.SITE_ID_A cloudId) ++ [circuitLabel r, circuitLabel r]) := by
  have hE : (processRecord st r).E =
      appendEdgeLabel (appendEdgeLabel st.E (edgeKey r.SITE_ID_A cloudId) (circuitLabel r))
        (edgeKey r.SITE_ID_B cloudId) (circuitLabel r) := by
    simp [processRecord, hc, hb]
  constructor
  · intro hab
    have hne : edgeKey r.SITE_ID_A cloudId ≠ edgeKey r.SITE_ID_B cloudId := by
      intro heq
      rcases edgeKey_inj _ _ _ _ heq with ⟨h₁, _⟩ | ⟨h₁, h₂⟩
      · exact hab h₁
      · exact hab (h₁.trans h₂)
    have hother : ∀ k : EdgeKey, k ≠ edgeKey r.SITE_ID_A cloudId →
        k ≠ edgeKey r.SITE_ID_B cloudId →
        getEdge (processRecord st r).E k = getEdge st.E k := by
      intro k hk₁ hk₂
      rw [hE, getEdge_appendEdgeLabel, if_neg hk₂, getEdge_appendEdgeLabel, if_neg hk₁]
    refine ⟨hne, ?_, ?_, hother, ?_⟩
    · rw [hE, getEdge_appendEdgeLabel, if_neg hne, getEdge_appendEdgeLabel, if_pos rfl]
    · rw [hE, getEdge_appendEdgeLabel, if_pos rfl, getEdge_appendEdgeLabel,
        if_neg (fun hc₂ => hne hc₂.symm)]
    · intro hA hB
      apply hother
      · intro heq
        rcases edgeKey_inj _ _ _ _ heq with ⟨_, h₂⟩ | ⟨h₁, _⟩
        · exact hB h₂
        · exact hA h₁
      · intro heq
        rcases edgeKey_inj _ _ _ _ heq with ⟨_, h₂⟩ | ⟨h₁, _⟩
        · exact hB h₂
        · exact hA h₁
  · intro hab
    rw [hE, ← hab, getEdge_appendEdgeLabel, if_pos rfl, getEdge_appendEdgeLabel, if_pos rfl,
      List.append_assoc]
    rfl

/-- Witness for claim C2 at a concrete shared-network record with two
distinct endpoints, applied to the empty build state. -/
theorem C2_witness :
    getEdge (processRecord ⟨[], []⟩ ⟨"MPLS", "C1", "S1", "B1", "S2", "B2", ""⟩).E
      (edgeKey "S1" cloudId) = ["MPLS [C1]"] ∧
    getEdge (processRecord ⟨[], []⟩ ⟨"MPLS", "C1", "S1", "B1", "S2", "B2", ""⟩).E
      (edgeKey "S2" cloudId) = ["MPLS [C1]"] ∧
    getEdge (processRecord ⟨[], []⟩ ⟨"MPLS", "C1", "S1", "B1", "S2", "B2", ""⟩).E
      (edgeKey "S1" "S2") = [] := by
  have h := (C2_theorem ⟨[], []⟩ ⟨"MPLS", "C1", "S1", "B1", "S2", "B2", ""⟩
    (by decide) (by decide)).1 (by decide)
  refine ⟨?_, ?_, ?_⟩
  · rw [h.2.1]
    decide
  · rw [h.2.2.1]
    decide
  · rw [h.2.2.2.2 (by decide) (by decide)]
    decide

/-! ## Claim C4 -/

/-- Claim C4, confirmed: every edge key present in the final edges map
holds a nonempty label list equal to the sequence of circuit labels of
the record contributions to that key, in input order, duplicates
retained. -/
theorem C4_theorem (recs : List CircuitData) (k : EdgeKey) (ls : List String)
    (hm : (k, ls) ∈ (buildTopology recs).E) :
    ls ≠ [] ∧ ls = writesFor (recs.flatMap edgeWrites) k := by
  have hnd := nodup_keysOf_buildTopology_E recs
  have hlook := lookupEdge_eq_of_mem _ hnd k ls hm
  have hget : getEdge (buildTopology recs).E k = ls := by
    unfold getEdge
    rw [hlook]
    rfl
  have hdecomp : getEdge (buildTopology recs).E k =
      writesFor (recs.flatMap edgeWrites) k := by
    rw [buildTopology_E, getEdge_applyEdgeWrites]
    rfl
  constructor
  · have hk : k ∈ keysOf (buildTopology recs).E := by
      rw [keysOf]
      exact List.mem_map_of_mem Prod.fst hm
    rw [buildTopology_E] at hk
    rcases (mem_keysOf_applyEdgeWrites [] _ k).mp hk with h | h
    · exact absurd h (List.not_mem_nil k)
    · rw [← hget, hdecomp]
      exact writesFor_ne_nil_of_mem_keysOf _ k h
  · rw [← hget, hdecomp]

/-- Witness for claim C4: two identical LEASEDLINE records produce the
edge (S1, S2) carrying the same label twice, consecutively, in input
order. -/
theorem C4_witness :
    ["LEASEDLINE [C2]", "LEASEDLINE [C2]"] ≠ ([] : List String) ∧
    ["LEASEDLINE [C2]", "LEASEDLINE [C2]"] =
      writesFor ([⟨"LEASEDLINE", "C2", "S1", "B1", "S2", "B2", ""⟩,
        (⟨"LEASEDLINE", "C2", "S1", "B1", "S2", "B2", ""⟩ : CircuitData)].flatMap edgeWrites)
        ("S1", "S2") :=
  C4_theorem _ ("S1", "S2") _ (by decide)

/-! ## Claim C1 -/

/-- Counterexample to claim C1 as stated: the first record classifies
site S as datacenter (building HQ contains the HQ marker), but a later
record mentioning S with building Home reclassifies it, and the final
role is customer, not datacenter — role assignment is last-write-wins,
not monotonic. -/
theorem C1_counterexample :
    classifyRole "HQ" = "datacenter" ∧
    (lookupNode (buildTopology [⟨"X", "C1", "S", "HQ", "", "", ""⟩,
        ⟨"X", "C2", "S", "Home", "", "", ""⟩]).G "S").map NodeAttrs.role =
      some "customer" ∧
    ("customer" : String) ≠ "datacenter" := ⟨by decide, by decide, by decide⟩

/-- Claim C1, amended: a site distinct from the synthetic cloud identity
carries, in the final graph, the role obtained by classifying the
building name of the last record mention of that site in input order
(last-write-wins); an early datacenter classification survives only when
no later mention reclassifies the site. -/
theorem C1_theorem (recs : List CircuitData) (s : String) (hs : s ≠ cloudId) :
    (lookupNode (buildTopology recs).G s).map NodeAttrs.role =
      (lastOf (mentions recs s)).map classifyRole := by
  rw [lookupNode_buildTopology_mentions recs s hs]
  cases lastOf (mentions recs s) <;> rfl

/-- Witness for claim C1 at the two-record batch of the counterexample. -/
theorem C1_witness :
    (lookupNode (buildTopology [⟨"X", "C1", "S", "HQ", "", "", ""⟩,
        ⟨"X", "C2", "S", "Home", "", "", ""⟩]).G "S").map NodeAttrs.role =
      (lastOf (mentions [⟨"X", "C1", "S", "HQ", "", "", ""⟩,
        ⟨"X", "C2", "S", "Home", "", "", ""⟩] "S")).map classifyRole :=
  C1_theorem _ "S" (by decide)

/-! ## Claim C9 -/

/-- Counterexample to claim C9 as stated: when an input site identifier
equals the synthetic identity Cloud_Network, the node whose identity
comes from the siteIdA field of a record does end up with role cloud. -/
theorem C9_counterexample :
    (CircuitData.mk "MPLS" "C1" "Cloud_Network" "B1" "" "" "").SITE_ID_A = "Cloud_Network" ∧
    (lookupNode (buildTopology [⟨"MPLS", "C1", "Cloud_Network", "B1", "", "", ""⟩]).G
        "Cloud_Network").map NodeAttrs.role = some "cloud" := ⟨rfl, by decide⟩

/-- Claim C9, amended: the role cloud is only ever carried by the node
whose identity is the fixed synthetic string Cloud_Network; a node whose
identity differs from Cloud_Network never has role cloud.  When an input
site identifier equals Cloud_Network the site and the synthetic node are
one map entry, so that site can end up with role cloud. -/
theorem C9_theorem (recs : List CircuitData) (n : String) (a : NodeAttrs)
    (hm : (n, a) ∈ (buildTopology recs).G) (hrole : a.role = "cloud") : n = cloudId := by
  rw [buildTopology_G] at hm
  rcases mem_applyNodeWrites [] _ _ hm with h | h
  · exact absurd h (List.not_mem_nil _)
  · rcases List.mem_flatMap.mp h with ⟨r, _, hw⟩
    exact nodeWrites_role_cloud r (n, a) hw hrole

/-- Witness for claim C9: the synthetic cloud node of a one-record MPLS
batch. -/
theorem C9_witness :
    (("Cloud_Network", NodeAttrs.mk "MPLS / VPN / Internet" "cloud") ∈
      (buildTopology [⟨"MPLS", "C1", "S1", "B1", "", "", ""⟩]).G) ∧
    ("Cloud_Network" : String) = cloudId :=
  ⟨by decide, C9_theorem [⟨"MPLS", "C1", "S1", "B1", "", "", ""⟩] "Cloud_Network"
    ⟨"MPLS / VPN / Internet", "cloud"⟩ (by decide) rfl⟩

/-! ## Claim C10 -/

/-- Counterexample to claim C10 as stated: a site whose identifier equals
Cloud_Network is mentioned only by a record carrying building MyBuilding,
yet its final display label is the synthetic cloud label, not the
building name carried by the last mentioning record. -/
theorem C10_counterexample :
    mentions [⟨"MPLS", "C1", "Cloud_Network", "MyBuilding", "", "", ""⟩] "Cloud_Network" =
      ["MyBuilding"] ∧
    (lookupNode (buildTopology [⟨"MPLS", "C1", "Cloud_Network", "MyBuilding", "", "", ""⟩]).G
        "Cloud_Network").map NodeAttrs.label = some "MPLS / VPN / Internet" ∧
    ("MPLS / VPN / Internet" : String) ≠ "MyBuilding" := ⟨by decide, by decide, by decide⟩

/-- Claim C10, amended: for every site whose identifier differs from the
synthetic identity Cloud_Network, the display label in the final graph is
the building name carried by the last mention of that site in input
order (each registration overwrites the label), while the node order of
the graph — the insertion order the layout engine consumes — keeps every
node at its first-registration position. -/
theorem C10_theorem (recs : List CircuitData) (s : String) (hs : s ≠ cloudId) :
    (lookupNode (buildTopology recs).G s).map NodeAttrs.label =
      lastOf (mentions recs s) ∧
    keysOf (buildTopology recs).G = firstOccur (keysOf (recs.flatMap nodeWrites)) := by
  constructor
  · rw [lookupNode_buildTopology_mentions recs s hs]
    cases lastOf (mentions recs s) <;> rfl
  · rw [buildTopology_G, keysOf_applyNodeWrites]
    rfl

/-- Witness for claim C10 at a two-record batch whose second record
renames the building of site S. -/
theorem C10_witness :
    ((lookupNode (buildTopology [⟨"X", "C1", "S", "HQ", "", "", ""⟩,
        ⟨"X", "C2", "S", "Home", "", "", ""⟩]).G "S").map NodeAttrs.label =
      lastOf (mentions [⟨"X", "C1", "S", "HQ", "", "", ""⟩,
        ⟨"X", "C2", "S", "Home", "", "", ""⟩] "S")) ∧
    keysOf (buildTopology [⟨"X", "C1", "S", "HQ", "", "", ""⟩,
        ⟨"X", "C2", "S", "Home", "", "", ""⟩]).G =
      firstOccur (keysOf ([⟨"X", "C1", "S", "HQ", "", "", ""⟩,
        (⟨"X", "C2", "S", "Home", "", "", ""⟩ : CircuitData)].flatMap nodeWrites)) :=
  C10_theorem _ "S" (by decide)

/-! ## Claim C7 -/

/-- Claim C7, confirmed: on any graph with no duplicate node identities
(every builder output is such a graph), each node is placed at the fixed
x-coordinate of the column of its role group — the three column
x-coordinates pairwise distinct — and at the y-coordinate
midline - (count - 1) * spacing / 2 + i * spacing, where count is the
size of its group, i its 0-based insertion-order index in the group,
the midline is 15/4 and the spacing 3/2. -/
theorem C7_theorem (G : Graph) (hnd : (keysOf G).Nodup) :
    (∀ n a, (n, a) ∈ G →
      lookupPos (apply_l2r_topology_layout G) n =
        some (colX a.role,
          yFromSpec (groupNodes G a.role).length (idxOf n (groupNodes G a.role)))) ∧
    (X_LEFT ≠ X_CENTER ∧ X_LEFT ≠ X_RIGHT ∧ X_CENTER ≠ X_RIGHT) := by
  constructor
  · intro n a hmem
    unfold apply_l2r_topology_layout
    by_cases hcl : a.role = "cloud"
    · have hgroup : groupNodes G a.role = centerNodes G := by simp [groupNodes, hcl]
      have hx : colX a.role = X_CENTER := by simp [colX, hcl]
      have hmemC : n ∈ centerNodes G :=
        (mem_mapfst_filter G _ n).mpr ⟨a, hmem, by simp [hcl]⟩
      have hnotL : n ∉ leftNodes G := by
        intro hmem₂
        rcases (mem_mapfst_filter G _ n).mp hmem₂ with ⟨b, hbmem, hf⟩
        rw [← attrs_unique G hnd n a b hmem hbmem] at hf
        simp [hcl] at hf
      rw [hgroup, hx, lookupPos_append, lookupPos_append,
        lookupPos_assignYPositions_notMem _ _ _ hnotL, overrideWith_none,
        lookupPos_assignYPositions_mem _ _ _ hmemC, overrideWith_some]
    · by_cases hdc : a.role = "datacenter"
      · have hgroup : groupNodes G a.role = rightNodes G := by simp [groupNodes, hcl, hdc]
        have hx : colX a.role = X_RIGHT := by simp [colX, hcl, hdc]
        have hmemR : n ∈ rightNodes G :=
          (mem_mapfst_filter G _ n).mpr ⟨a, hmem, by simp [hcl, hdc]⟩
        have hnotL : n ∉ leftNodes G := by
          intro hmem₂
          rcases (mem_mapfst_filter G _ n).mp hmem₂ with ⟨b, hbmem, hf⟩
          rw [← attrs_unique G hnd n a b hmem hbmem] at hf
          simp [hcl, hdc] at hf
        have hnotC : n ∉ centerNodes G := by
          intro hmem₂
          rcases (mem_mapfst_filter G _ n).mp hmem₂ with ⟨b, hbmem, hf⟩
          rw [← attrs_unique G hnd n a b hmem hbmem] at hf
          simp [hcl] at hf
        rw [hgroup, hx, lookupPos_append, lookupPos_append,
          lookupPos_assignYPositions_notMem _ _ _ hnotL, overrideWith_none,
          lookupPos_assignYPositions_notMem _ _ _ hnotC, overrideWith_none,
          lookupPos_assignYPositions_mem _ _ _ hmemR]
      · have hgroup : groupNodes G a.role = leftNodes G := by simp [groupNodes, hcl, hdc]
        have hx : colX a.role = X_LEFT := by simp [colX, hcl, hdc]
        have hmemL : n ∈ leftNodes G :=
          (mem_mapfst_filter G _ n).mpr ⟨a, hmem, by simp [hcl, hdc]⟩
        rw [hgroup, hx, lookupPos_append, lookupPos_append,
          lookupPos_assignYPositions_mem _ _ _ hmemL, overrideWith_some, overrideWith_some]
  · refine ⟨?_, ?_, ?_⟩ <;> norm_num [X_LEFT, X_CENTER, X_RIGHT]

/-- Witness for claim C7 at a concrete two-node graph holding one
customer node and one datacenter node. -/
theorem C7_witness :
    lookupPos (apply_l2r_topology_layout
        [("S1", ⟨"B1", "customer"⟩), ("D1", ⟨"HQ", "datacenter"⟩)]) "D1" =
      some (colX (NodeAttrs.mk "HQ" "datacenter").role,
        yFromSpec (groupNodes [("S1", ⟨"B1", "customer"⟩), ("D1", ⟨"HQ", "datacenter"⟩)]
            (NodeAttrs.mk "HQ" "datacenter").role).length
          (idxOf "D1" (groupNodes [("S1", ⟨"B1", "customer"⟩),
            ("D1", ⟨"HQ", "datacenter"⟩)] (NodeAttrs.mk "HQ" "datacenter").role))) ∧
    (X_LEFT ≠ X_CENTER ∧ X_LEFT ≠ X_RIGHT ∧ X_CENTER ≠ X_RIGHT) :=
  ⟨(C7_theorem [("S1", ⟨"B1", "customer"⟩), ("D1", ⟨"HQ", "datacenter"⟩)] (by decide)).1
      "D1" ⟨"HQ", "datacenter"⟩ (by decide),
   (C7_theorem [("S1", ⟨"B1", "customer"⟩), ("D1", ⟨"HQ", "datacenter"⟩)] (by decide)).2⟩

/-! ## Claim C8 -/

theorem keysOf_layout (G : Graph) :
    keysOf (apply_l2r_topology_layout G) =
      leftNodes G ++ centerNodes G ++ rightNodes G := by
  unfold apply_l2r_topology_layout
  rw [show keysOf (assignYPositions (leftNodes G) X_LEFT ++
        assignYPositions (centerNodes G) X_CENTER ++
        assignYPositions (rightNodes G) X_RIGHT) =
      keysOf (assignYPositions (leftNodes G) X_LEFT) ++
        keysOf (assignYPositions (centerNodes G) X_CENTER) ++
        keysOf (assignYPositions (rightNodes G) X_RIGHT) from by simp [keysOf],
    keysOf_assignYPositions, keysOf_assignYPositions, keysOf_assignYPositions]

theorem mem_two_groups_false (G : Graph) (hnd : (keysOf G).Nodup) (n : String)
    (f g : String × NodeAttrs → Bool)
    (hfg : ∀ a : NodeAttrs, ¬ (f (n, a) = true ∧ g (n, a) = true))
    (h₁ : n ∈ (G.filter f).map Prod.fst) (h₂ : n ∈ (G.filter g).map Prod.fst) : False := by
  rcases (mem_mapfst_filter G f n).mp h₁ with ⟨a, hamem, hfa⟩
  rcases (mem_mapfst_filter G g n).mp h₂ with ⟨b, hbmem, hgb⟩
  rw [← attrs_unique G hnd n a b hamem hbmem] at hgb
  exact hfg a ⟨hfa, hgb⟩

/-- Claim C8, confirmed: on every graph produced by the builder, the
position map positions every node of the graph exactly once (its key
list is duplicate-free and holds exactly the node identities of the
graph), and the layout of a graph with zero nodes is the empty position
map.  Determinism over a fixed node-insertion order holds by construction
in this embedding: the layout is a pure function of the graph. -/
theorem C8_theorem (recs : List CircuitData) :
    (keysOf (apply_l2r_topology_layout (buildTopology recs).G)).Nodup ∧
    (∀ n, n ∈ keysOf (buildTopology recs).G ↔
      n ∈ keysOf (apply_l2r_topology_layout (buildTopology recs).G)) ∧
    apply_l2r_topology_layout ([] : Graph) = [] := by
  have hnd := nodup_keysOf_buildTopology_G recs
  refine ⟨?_, ?_, rfl⟩
  · rw [keysOf_layout]
    have hL : (leftNodes (buildTopology recs).G).Nodup :=
      List.Nodup.sublist (List.Sublist.map Prod.fst (List.filter_sublist _)) hnd
    have hC : (centerNodes (buildTopology recs).G).Nodup :=
      List.Nodup.sublist (List.Sublist.map Prod.fst (List.filter_sublist _)) hnd
    have hR : (rightNodes (buildTopology recs).G).Nodup :=
      List.Nodup.sublist (List.Sublist.map Prod.fst (List.filter_sublist _)) hnd
    have hLC : (leftNodes (buildTopology recs).G).Disjoint
        (centerNodes (buildTopology recs).G) := by
      intro n hn hmem
      refine mem_two_groups_false _ hnd n _ _ ?_ hn hmem
      rintro a ⟨hf, hg⟩
      simp only [Bool.and_eq_true, Bool.not_eq_eq_eq_not, Bool.not_true, beq_eq_false_iff_ne,
        ne_eq, beq_iff_eq] at hf hg
      exact hf.1 hg
    have hLR : (leftNodes (buildTopology recs).G).Disjoint
        (rightNodes (buildTopology recs).G) := by
      intro n hn hmem
      refine mem_two_groups_false _ hnd n _ _ ?_ hn hmem
      rintro a ⟨hf, hg⟩
      simp only [Bool.and_eq_true, Bool.not_eq_eq_eq_not, Bool.not_true, beq_eq_false_iff_ne,
        ne_eq, beq_iff_eq] at hf hg
      exact hf.2 hg.2
    have hCR : (centerNodes (buildTopology recs).G).Disjoint
        (rightNodes (buildTopology recs).G) := by
      intro n hn hmem
      refine mem_two_groups_false _ hnd n _ _ ?_ hn hmem
      rintro a ⟨hf, hg⟩
      simp only [Bool.and_eq_true, Bool.not_eq_eq_eq_not, Bool.not_true, beq_eq_false_iff_ne,
        ne_eq, beq_iff_eq] at hf hg
      exact hg.1 hf
    rw [List.nodup_append, List.nodup_append]
    refine ⟨⟨hL, hC, hLC⟩, hR, ?_⟩
    intro n hn
    rcases List.mem_append.mp hn with h | h
    · exact hLR h
    · exact hCR h
  · intro n
    rw [keysOf_layout]
    constructor
    · intro hn
      rcases List.mem_map.mp hn with ⟨⟨n₀, a⟩, hmem, rfl⟩
      by_cases hcl : a.role = "cloud"
      · have hmemC : (n₀, a).1 ∈ centerNodes (buildTopology recs).G :=
          (mem_mapfst_filter _ _ _).mpr ⟨a, hmem, by simp [hcl]⟩
        exact List.mem_append.mpr (Or.inl (List.mem_append.mpr (Or.inr hmemC)))
      · by_cases hdc : a.role = "datacenter"
        · have hmemR : (n₀, a).1 ∈ rightNodes (buildTopology recs).G :=
            (mem_mapfst_filter _ _ _).mpr ⟨a, hmem, by simp [hcl, hdc]⟩
          exact List.mem_append.mpr (Or.inr hmemR)
        · have hmemL : (n₀, a).1 ∈ leftNodes (buildTopology recs).G :=
            (mem_mapfst_filter _ _ _).mpr ⟨a, hmem, by simp [hcl, hdc]⟩
          exact List.mem_append.mpr (Or.inl (List.mem_append.mpr (Or.inl hmemL)))
    · intro hn
      rcases List.mem_append.mp hn with h | h
      · rcases List.mem_append.mp h with h₂ | h₂
        · rcases (mem_mapfst_filter _ _ _).mp h₂ with ⟨b, hbmem, _⟩
          exact List.mem_map_of_mem Prod.fst hbmem
        · rcases (mem_mapfst_filter _ _ _).mp h₂ with ⟨b, hbmem, _⟩
          exact List.mem_map_of_mem Prod.fst hbmem
      · rcases (mem_mapfst_filter _ _ _).mp h with ⟨b, hbmem, _⟩
        exact List.mem_map_of_mem Prod.fst hbmem
